import Mathlib

/-!
Verification of the stock screening core of the repository:
`backend/agents/data_processor.py` (classes `FilterProcessor` and
`DataProcessorAgent`, dataclasses `StockIntent` and `StockData`).

Modelling conventions:
* Python `float` metric values are modelled as exact rationals `ℚ`; metric
  fields of `StockData` that are `Optional[float]` become `Option ℚ`
  (`none` = Python `None`).
* `getattr(stock, name, default)` is modelled by `getattrP`, a lookup over
  the dataclass field names returning a `PyVal` (`.str` for the three string
  fields, `optNum` of the option for the eight numeric fields, `.none`
  otherwise, matching the `None` / `0` defaults at each call site).
* Python exceptions are modelled with `Except`: `ValueError` from
  `key.rsplit('_', 1)` on a key without an underscore, `TypeError` from an
  order comparison between a `str` and a number, and the `StopIteration`
  raised by `next(iter(intent.filters))` on an empty filter dict.  The broad
  `except Exception` in `DataProcessorAgent.invoke` turns any of these into
  an error result, which `invoke` below returns directly.
* `self._sector_cache` (a `defaultdict(dict)` whose per-sector dict may hold
  the keys `"stocks"` and `"medians"`) is modelled as a total function from
  sector names to a `CacheEntry` with two `Option` fields; a missing sector
  is the entry with both fields `none`, exactly the fresh `dict` a
  `defaultdict` would produce.
* The `set(...)` of display metric keys is modelled with `List.eraseDups`;
  Python set iteration order is unspecified, so a deterministic
  first-occurrence order is chosen.  No claim depends on that order.
* `round(x, 2)` is modelled as exact round-half-to-even on rationals,
  the rounding Python uses on ideal (non-float-quantised) values.
* The network fetch (`StockDataFetcher`) is I/O; `invoke` takes the fetched
  population as the explicit argument `fetched`, used exactly where the code
  falls back to `self.fetcher.fetch_multiple(...)` on a cache miss.
-/

/-- A Python value as it appears in the stock dicts: a string, a number, or
`None`. -/
inductive PyVal where
  | none : PyVal
  | num (q : ℚ) : PyVal
  | str (s : String) : PyVal
deriving DecidableEq, Repr

/-- Coerce an `Option ℚ` field into a `PyVal`. -/
def optNum : Option ℚ → PyVal
  | Option.none => PyVal.none
  | Option.some q => PyVal.num q

/-- `@dataclass StockData` of `data_processor.py`: symbol/name/sector plus the
eight optional numeric metrics. -/
structure StockData where
  symbol : String
  name : String
  sector : String
  price : Option ℚ := Option.none
  peRatio : Option ℚ := Option.none
  pbRatio : Option ℚ := Option.none
  debtToEquity : Option ℚ := Option.none
  revenueGrowth : Option ℚ := Option.none
  dividendYield : Option ℚ := Option.none
  freeCashFlowYield : Option ℚ := Option.none
  marketCap : Option ℚ := Option.none
deriving DecidableEq, Repr

/-- `@dataclass StockIntent`: the parsed screening intent.  `limit` is
Python's `Optional[int]`. -/
structure StockIntent where
  intent : String
  sector : String
  metrics : List String
  filters : List (String × ℚ)
  limit : Option Int := Option.none
deriving DecidableEq, Repr

/-- The eight numeric metric field names, in the order of
`metric_keys_full` in `DataProcessorAgent.invoke`. -/
def metricKeysFull : List String :=
  ["peRatio", "pbRatio", "freeCashFlowYield", "price", "dividendYield",
   "debtToEquity", "revenueGrowth", "marketCap"]

/-- Numeric field access: `d.get(key)` on `StockData.to_dict()` restricted to
the eight numeric metric keys (`none` for any other name). -/
def getMetric (s : StockData) (a : String) : Option ℚ :=
  if a = "price" then s.price
  else if a = "peRatio" then s.peRatio
  else if a = "pbRatio" then s.pbRatio
  else if a = "debtToEquity" then s.debtToEquity
  else if a = "revenueGrowth" then s.revenueGrowth
  else if a = "dividendYield" then s.dividendYield
  else if a = "freeCashFlowYield" then s.freeCashFlowYield
  else if a = "marketCap" then s.marketCap
  else Option.none

/-- `getattr(stock, a, None)` over the dataclass fields of `StockData`. -/
def getattrP (s : StockData) (a : String) : PyVal :=
  if a = "symbol" then PyVal.str s.symbol
  else if a = "name" then PyVal.str s.name
  else if a = "sector" then PyVal.str s.sector
  else optNum (getMetric s a)

/-- Split a character list at the LAST underscore: `rsplitCh cs = some (a, b)`
when `cs = a ++ '_' :: b` with `b` underscore-free, `none` when `cs` has no
underscore. -/
def rsplitCh : List Char → Option (List Char × List Char)
  | [] => Option.none
  | c :: cs =>
    match rsplitCh cs with
    | Option.some (a, b) => Option.some (c :: a, b)
    | Option.none => if c = '_' then Option.some ([], cs) else Option.none

/-- Python `key.rsplit('_', 1)` when it yields two parts; `none` models the
`ValueError` of unpacking a one-part result (key without an underscore). -/
def rsplitLast (s : String) : Option (String × String) :=
  match rsplitCh s.data with
  | Option.some (a, b) => Option.some (String.mk a, String.mk b)
  | Option.none => Option.none

/-- Python `key.rsplit("_", 1)[0]`: the part before the last underscore, or
the whole string when there is none (a one-element list is returned then). -/
def rsplitBase (s : String) : String :=
  match rsplitLast s with
  | Option.some (b, _) => b
  | Option.none => s

/-- First segment of Python `key.split("_")[0]`: the part before the FIRST
underscore (the whole string when there is none). -/
def splitFirstCh : List Char → List Char
  | [] => []
  | c :: cs => if c = '_' then [] else c :: splitFirstCh cs

/-- Python `key.split("_")[0]`. -/
def splitFirst (s : String) : String := String.mk (splitFirstCh s.data)

/-- Python exceptions that the filter loop can raise. -/
inductive PyErr where
  | valueError : PyErr
  | typeError : PyErr
deriving DecidableEq, Repr

/-- One iteration of the `for key, value in filters.items()` loop of
`FilterProcessor.apply_filters.passes`, for a single predicate:
`ok false` models `return False`, `ok true` models falling through to the
next predicate, errors model the exceptions Python would raise
(`ValueError` from unpacking `rsplit`, `TypeError` from ordering a `str`
against a number; `==`/`!=` between a `str` and a number is just unequal). -/
def passesOne (s : StockData) (key : String) (v : ℚ) : Except PyErr Bool :=
  match rsplitLast key with
  | Option.none => Except.error PyErr.valueError
  | Option.some (base, op) =>
    match getattrP s base with
    | PyVal.none => Except.ok false
    | PyVal.num q =>
      if op = "lt" ∧ q ≥ v then Except.ok false
      else if op = "gt" ∧ q ≤ v then Except.ok false
      else if op = "eq" ∧ q ≠ v then Except.ok false
      else Except.ok true
    | PyVal.str _ =>
      if op = "lt" then Except.error PyErr.typeError
      else if op = "gt" then Except.error PyErr.typeError
      else if op = "eq" then Except.ok false
      else Except.ok true

/-- The whole `passes(stock)` closure: predicates are checked in order with
short-circuit on the first failure. -/
def passesAll (s : StockData) : List (String × ℚ) → Except PyErr Bool
  | [] => Except.ok true
  | (k, v) :: rest =>
    match passesOne s k v with
    | Except.error e => Except.error e
    | Except.ok false => Except.ok false
    | Except.ok true => passesAll s rest

/-- The list comprehension `[s for s in stocks if passes(s)]`, with an
exception raised by `passes` aborting the whole comprehension. -/
def filterE (p : StockData → Except PyErr Bool) : List StockData → Except PyErr (List StockData)
  | [] => Except.ok []
  | s :: rest =>
    match p s with
    | Except.error e => Except.error e
    | Except.ok b =>
      match filterE p rest with
      | Except.error e => Except.error e
      | Except.ok r => Except.ok (if b then s :: r else r)

/-- `FilterProcessor.apply_filters`. -/
def applyFilters (stocks : List StockData) (filters : List (String × ℚ)) :
    Except PyErr (List StockData) :=
  filterE (fun s => passesAll s filters) stocks

/-- Boolean version of a single predicate check, meaningful for keys on which
`passesOne` cannot raise. -/
def passesOneB (s : StockData) (key : String) (v : ℚ) : Bool :=
  match passesOne s key v with
  | Except.ok true => true
  | _ => false

/-- Boolean version of `passes(stock)` over a whole predicate list. -/
def passesB (s : StockData) (filters : List (String × ℚ)) : Bool :=
  filters.all (fun p => passesOneB s p.1 p.2)

/-- A filter key is well formed when it splits at a last underscore into a
base that is not one of the three string fields and one of the three
recognised operators. -/
def WFKeyB (k : String) : Bool :=
  match rsplitLast k with
  | Option.none => false
  | Option.some (b, op) =>
    (op = "lt" ∨ op = "gt" ∨ op = "eq") ∧
      (b ≠ "symbol" ∧ b ≠ "name" ∧ b ≠ "sector")

/-- First-match association lookup, modelling `dict.get` on the ordered
key/value lists we use for Python dicts. -/
def alookup {α : Type} : List (String × α) → String → Option α
  | [], _ => Option.none
  | (k, v) :: rest, key => if k = key then Option.some v else alookup rest key

/-- A row dict of the output (`entry` / `sector_medians` in the source):
an insertion-ordered list of key/value pairs with unique keys. -/
def Row : Type := List (String × PyVal)

instance : DecidableEq Row := inferInstanceAs (DecidableEq (List (String × PyVal)))

/-- Python `d[k] = v` on a dict: replace in place if the key is present,
append otherwise. -/
def dictSet (d : Row) (k : String) (v : PyVal) : Row :=
  match d with
  | [] => [(k, v)]
  | (k1, v1) :: rest => if k1 = k then (k, v) :: rest else (k1, v1) :: dictSet rest k v

/-- `StockData.to_dict()`: the eleven keys in source order. -/
def stockDict (s : StockData) : Row :=
  [("symbol", PyVal.str s.symbol), ("name", PyVal.str s.name),
   ("sector", PyVal.str s.sector), ("price", optNum s.price),
   ("peRatio", optNum s.peRatio), ("pbRatio", optNum s.pbRatio),
   ("debtToEquity", optNum s.debtToEquity),
   ("revenueGrowth", optNum s.revenueGrowth),
   ("dividendYield", optNum s.dividendYield),
   ("freeCashFlowYield", optNum s.freeCashFlowYield),
   ("marketCap", optNum s.marketCap)]

/-- The sort key produced by `lambda s: getattr(s, metric_name, 0) or 0`:
a falsy value (`None`, `0`) and a missing attribute become the number `0`,
a string field stays a string. -/
inductive SKey where
  | num (q : ℚ) : SKey
  | str (s : String) : SKey
deriving DecidableEq, Repr

/-- Comparison used to model Python's stable sort on the keys.  Keys of one
sort call are always homogeneous (the constructor depends only on the metric
name, not on the stock), so the cross-constructor values are never
exercised; they are fixed to keep the relation total. -/
def SKey.leB : SKey → SKey → Bool
  | SKey.num a, SKey.num b => decide (a ≤ b)
  | SKey.str a, SKey.str b => decide (a ≤ b)
  | SKey.num _, SKey.str _ => true
  | SKey.str _, SKey.num _ => false

/-- `getattr(s, m, 0) or 0` as a sort key. -/
def sortKey (m : String) (s : StockData) : SKey :=
  match getattrP s m with
  | PyVal.none => SKey.num 0
  | PyVal.num q => SKey.num q
  | PyVal.str t => SKey.str t

/-- Ordering on stocks for the ascending metric sort
(`filtered.sort(key=..., reverse=False)`). -/
def ascRel (m : String) (s t : StockData) : Prop :=
  SKey.leB (sortKey m s) (sortKey m t) = true

instance (m : String) : DecidableRel (ascRel m) := fun s t =>
  inferInstanceAs (Decidable (SKey.leB (sortKey m s) (sortKey m t) = true))

/-- Ordering for the fallback `filtered.sort(key=lambda s: s.marketCap or 0,
reverse=True)`: a stable descending sort compares the keys the other way
around while keeping equal-key elements in input order. -/
def descRel (s t : StockData) : Prop :=
  (t.marketCap.getD 0 : ℚ) ≤ s.marketCap.getD 0

instance : DecidableRel descRel := fun s t =>
  inferInstanceAs (Decidable ((t.marketCap.getD 0 : ℚ) ≤ s.marketCap.getD 0))

/-- The two in-place `filtered.sort(...)` calls of `invoke`, keyed by the
first filter key `k` (`if first_filter_key:` is string truthiness).  Python's
sort is stable; a stable sort under a total preorder is unique, so it is
modelled by `List.insertionSort`, which is stable. -/
def rankStage (k : String) (l : List StockData) : List StockData :=
  if k = "" then l.insertionSort descRel
  else l.insertionSort (ascRel (rsplitBase k))

/-- Python `l[:n]` for an `int` `n`: the first `n` elements when `n ≥ 0`,
all but the last `|n|` elements when `n < 0`. -/
def pySlice {α : Type} (l : List α) (n : Int) : List α :=
  if 0 ≤ n then l.take n.toNat else l.take (l.length - n.natAbs)

/-- The truncation step of `invoke`: `filtered[:intent.limit]` when
`intent.limit` is truthy (not `None` and not `0`), else `filtered[:5]`. -/
def truncStage {α : Type} (limit : Option Int) (l : List α) : List α :=
  match limit with
  | Option.none => l.take 5
  | Option.some n => if n = 0 then l.take 5 else pySlice l n

/-- `metric_keys = set(intent.metrics + [k.split("_")[0] for k in
intent.filters.keys()])`, with the unspecified set iteration order fixed to
first occurrence. -/
def metricKeysOf (intent : StockIntent) : List String :=
  (intent.metrics ++ intent.filters.map (fun p => splitFirst p.1)).eraseDups

/-- The per-stock output row: `entry = {k: stock_dict[k] for k in
["symbol", "name", "sector"]}` followed by `entry[metric] =
stock_dict[metric]` for each display metric present in the dict. -/
def stockRow (mkeys : List String) (s : StockData) : Row :=
  mkeys.foldl
    (fun e m =>
      match alookup (stockDict s) m with
      | Option.some v => dictSet e m v
      | Option.none => e)
    [("symbol", PyVal.str s.symbol), ("name", PyVal.str s.name),
     ("sector", PyVal.str s.sector)]

/-- The present numeric values of a metric across a population:
`[d.get(key) for d in all_dicts if isinstance(d.get(key), (int, float))]`. -/
def presentValues (stocks : List StockData) (key : String) : List ℚ :=
  stocks.filterMap (fun s => getMetric s key)

/-- `statistics.median` on a nonempty list: sort, then the middle element for
odd length, the average of the two middle elements for even length. -/
def pyMedian (vs : List ℚ) : ℚ :=
  let sorted := vs.insertionSort (· ≤ ·)
  let n := vs.length
  if n % 2 = 1 then sorted.getD (n / 2) 0
  else (sorted.getD (n / 2 - 1) 0 + sorted.getD (n / 2) 0) / 2

/-- Round half to even at integer precision. -/
def roundHalfEven (q : ℚ) : ℤ :=
  if q - ⌊q⌋ < 1 / 2 then ⌊q⌋
  else if q - ⌊q⌋ > 1 / 2 then ⌊q⌋ + 1
  else if ⌊q⌋ % 2 = 0 then ⌊q⌋ else ⌊q⌋ + 1

/-- Python `round(x, 2)` on an exact value. -/
def round2 (q : ℚ) : ℚ := (roundHalfEven (q * 100) : ℚ) / 100

/-- The `medians` dict of `invoke`: for each of the eight metric keys, the
rounded median of the present values across the whole population, the key
being omitted when no value is present. -/
def computeMedians (stocks : List StockData) : List (String × ℚ) :=
  metricKeysFull.filterMap (fun key =>
    if (presentValues stocks key).isEmpty then Option.none
    else Option.some (key, round2 (pyMedian (presentValues stocks key))))

/-- `sector_medians = {"symbol": "Sector", "name": "Median", "sector": ...}`
followed by `sector_medians[key] = medians.get(key)` for each display
metric. -/
def buildMedianRow (sector : String) (mkeys : List String)
    (meds : List (String × ℚ)) : Row :=
  mkeys.foldl (fun e m => dictSet e m (optNum (alookup meds m)))
    [("symbol", PyVal.str "Sector"), ("name", PyVal.str "Median"),
     ("sector", PyVal.str sector)]

/-- One per-sector entry of `self._sector_cache`, a dict that may hold the
keys `"stocks"` and `"medians"`. -/
structure CacheEntry where
  stocks : Option (List StockData) := Option.none
  medians : Option Row := Option.none
deriving DecidableEq

/-- `self._sector_cache`, a `defaultdict(dict)`: a missing sector reads as
the empty entry. -/
def Cache : Type := String → CacheEntry

/-- The all-empty cache of a fresh `DataProcessorAgent`. -/
def emptyCache : Cache := fun _ => {}

/-- Point update of the cache. -/
def cacheSet (c : Cache) (k : String) (v : CacheEntry) : Cache :=
  fun x => if x = k then v else c x

/-- The stock-population step of `invoke`: use `_sector_cache[sector]
["stocks"]` when present, otherwise take the freshly fetched population and
store it under `"stocks"` (preserving any `"medians"` already there). -/
def getStocksStage (cache : Cache) (sector : String)
    (fetched : List StockData) : List StockData × Cache :=
  match (cache sector).stocks with
  | Option.some s => (s, cache)
  | Option.none =>
    (fetched, cacheSet cache sector { cache sector with stocks := Option.some fetched })

/-- The sector-medians step of `invoke`: reuse `_sector_cache[sector]
["medians"]` when present; otherwise compute the medians over the whole
population, build the sentinel row, and REPLACE the sector's cache entry by
`{"medians": sector_medians}` (dropping any cached `"stocks"`). -/
def medianStage (cache : Cache) (intent : StockIntent)
    (stocks : List StockData) (mkeys : List String) : Row × Cache :=
  match (cache intent.sector).medians with
  | Option.some row => (row, cache)
  | Option.none =>
    let row := buildMedianRow intent.sector mkeys (computeMedians stocks)
    (row, cacheSet cache intent.sector { stocks := Option.none, medians := Option.some row })

/-- How `invoke` can fail: the explicit `'No data fetched'` return, the
`StopIteration` of `next(iter(intent.filters))` on an empty filter dict, or
a Python exception from the filter loop — all but the first surface through
the broad `except Exception` as an error dict. -/
inductive InvokeErr where
  | noData : InvokeErr
  | stopIteration : InvokeErr
  | pyErr (e : PyErr) : InvokeErr
deriving DecidableEq

/-- The result dict of `DataProcessorAgent.invoke`.  `total_found` and
`after_filters` are `Option` because the error dicts do not carry them; the
`intent`/`query` passthrough fields carry no screening information and are
omitted. -/
structure ScreenResult where
  success : Bool
  err : Option InvokeErr := Option.none
  total_found : Option Nat := Option.none
  after_filters : Option Nat := Option.none
  results : List Row := []
deriving DecidableEq

/-- `DataProcessorAgent.invoke`, with the fetched population passed in as
`fetched` (see the header comment) and the cache threaded explicitly.
Mirrors the source line by line: population lookup/caching, the
`'No data fetched'` return, filtering, `first_filter_key =
next(iter(intent.filters))`, the two sorts, truncation, row assembly,
median lookup/caching, and the final result dict. -/
def invoke (cache : Cache) (intent : StockIntent) (fetched : List StockData) :
    ScreenResult × Cache :=
  let gs := getStocksStage cache intent.sector fetched
  let stocks := gs.1
  let cache1 := gs.2
  if stocks.isEmpty then
    ({ success := false, err := Option.some InvokeErr.noData, results := [] }, cache1)
  else
    match applyFilters stocks intent.filters with
    | Except.error e =>
      ({ success := false, err := Option.some (InvokeErr.pyErr e), results := [] }, cache1)
    | Except.ok filtered =>
      match intent.filters with
      | [] =>
        ({ success := false, err := Option.some InvokeErr.stopIteration, results := [] },
         cache1)
      | (k, _) :: _ =>
        let ranked := rankStage k filtered
        let truncated := truncStage intent.limit ranked
        let mkeys := metricKeysOf intent
        let rows := truncated.map (stockRow mkeys)
        let ms := medianStage cache1 intent stocks mkeys
        ({ success := true, err := Option.none,
           total_found := Option.some stocks.length,
           after_filters := Option.some truncated.length,
           results := rows ++ [ms.1] }, ms.2)

/-- The population `invoke` actually works on: the cached stocks when the
sector has a `"stocks"` entry, the fetched ones otherwise. -/
def stocksEff (cache : Cache) (intent : StockIntent)
    (fetched : List StockData) : List StockData :=
  (getStocksStage cache intent.sector fetched).1

/-- The numeric value a metric sort actually orders by: the metric value with
an absent value read as `0` (spec-side abbreviation of
`getattr(s, m, 0) or 0` for a numeric metric name). -/
def qkey (m : String) (s : StockData) : ℚ := (getMetric s m).getD 0

/-- The effective truncation bound of `invoke` for a limit that is absent,
zero, or positive (spec-side abbreviation used in statements). -/
def effLimit : Option Int → Nat
  | Option.none => 5
  | Option.some n => if 0 < n then n.toNat else 5

/-- Sample entity with a present `peRatio` and `price`, used by witnesses. -/
def stockAlpha : StockData :=
  { symbol := "AAA", name := "Alpha", sector := "Technology",
    price := Option.some 100, peRatio := Option.some 30,
    marketCap := Option.some 5000 }

/-- Sample entity with an absent `peRatio`, used by witnesses. -/
def stockBeta : StockData :=
  { symbol := "BBB", name := "Beta", sector := "Technology",
    price := Option.some 20, marketCap := Option.some 9000 }

/-- Sample entity with a low price, used by witnesses. -/
def stockGamma : StockData :=
  { symbol := "CCC", name := "Gamma", sector := "Technology",
    price := Option.some 20, peRatio := Option.some 10,
    marketCap := Option.some 700 }

/-- Six-entity population for the limit counterexample. -/
def stocksSix : List StockData :=
  [{ symbol := "S1", name := "One", sector := "Technology", price := Option.some 10 },
   { symbol := "S2", name := "Two", sector := "Technology", price := Option.some 20 },
   { symbol := "S3", name := "Three", sector := "Technology", price := Option.some 30 },
   { symbol := "S4", name := "Four", sector := "Technology", price := Option.some 40 },
   { symbol := "S5", name := "Five", sector := "Technology", price := Option.some 50 },
   { symbol := "S6", name := "Six", sector := "Technology", price := Option.some 60 }]

/-- Intent with an explicit `limit` of `0`. -/
def intentLimitZero : StockIntent :=
  { intent := "screen", sector := "Technology", metrics := ["price"],
    filters := [("price_gt", 0)], limit := Option.some 0 }

/-- Intent whose single filter excludes every sample entity. -/
def intentNoMatch : StockIntent :=
  { intent := "screen", sector := "Technology", metrics := ["price"],
    filters := [("price_lt", 1)], limit := Option.none }

/-- Intent with an empty filter dict. -/
def intentNoFilters : StockIntent :=
  { intent := "screen", sector := "Technology", metrics := ["price"],
    limit := Option.some 5, filters := [] }

/-- Intent with one well-formed filter, used by witnesses. -/
def intentBasic : StockIntent :=
  { intent := "screen", sector := "Technology", metrics := ["peRatio"],
    filters := [("price_gt", 0)], limit := Option.some 2 }

/-- Three-entity filtered list used by the ranking witness. -/
def stockList3 : List StockData := [stockAlpha, stockBeta, stockGamma]

-- ===== General lemmas =====

theorem getattrP_of_not_str (s : StockData) (m : String)
    (h1 : m ≠ "symbol") (h2 : m ≠ "name") (h3 : m ≠ "sector") :
    getattrP s m = optNum (getMetric s m) := by
  simp [getattrP, h1, h2, h3]

theorem rsplit_metric_op : ∀ m ∈ metricKeysFull, ∀ op ∈ (["lt", "gt", "eq"] : List String),
    rsplitLast (m ++ "_" ++ op) = Option.some (m, op) := by decide

theorem metricKeysFull_not_str : ∀ m ∈ metricKeysFull,
    m ≠ "symbol" ∧ m ≠ "name" ∧ m ≠ "sector" := by decide

theorem passesOne_true_iff (s : StockData) (key base op : String) (v : ℚ)
    (hr : rsplitLast key = Option.some (base, op))
    (h1 : base ≠ "symbol") (h2 : base ≠ "name") (h3 : base ≠ "sector")
    (hop : op = "lt" ∨ op = "gt" ∨ op = "eq") :
    (passesOne s key v = Except.ok true ↔
      ∃ q, getMetric s base = Option.some q ∧
        (op = "lt" → q < v) ∧ (op = "gt" → v < q) ∧ (op = "eq" → q = v)) := by
  simp only [passesOne, hr]
  rw [getattrP_of_not_str s base h1 h2 h3]
  cases hm : getMetric s base with
  | none => simp [optNum]
  | some q =>
    rcases hop with rfl | rfl | rfl
    · have hg := eq_false (show ¬ (("lt" : String) = "gt") by decide)
      have he := eq_false (show ¬ (("lt" : String) = "eq") by decide)
      by_cases hc : v ≤ q
      · simp [optNum, hg, he, hc, not_lt.mpr hc]
      · simp [optNum, hg, he, hc, lt_of_not_le hc]
    · have hl := eq_false (show ¬ (("gt" : String) = "lt") by decide)
      have he := eq_false (show ¬ (("gt" : String) = "eq") by decide)
      by_cases hc : q ≤ v
      · simp [optNum, hl, he, hc, not_lt.mpr hc]
      · simp [optNum, hl, he, hc, lt_of_not_le hc]
    · have hl := eq_false (show ¬ (("eq" : String) = "lt") by decide)
      have hg := eq_false (show ¬ (("eq" : String) = "gt") by decide)
      by_cases hc : q = v
      · simp [optNum, hl, hg, hc]
      · simp [optNum, hl, hg, hc]

theorem filterE_eq_filter (p : StockData → Except PyErr Bool) (q : StockData → Bool)
    (h : ∀ s, p s = Except.ok (q s)) :
    ∀ l : List StockData, filterE p l = Except.ok (l.filter q) := by
  intro l
  induction l with
  | nil => rfl
  | cons s rest ih =>
    simp only [filterE, h s, ih]
    cases hq : q s <;> simp [List.filter_cons, hq]

theorem wfkey_spec (k : String) (h : WFKeyB k = true) :
    ∃ b op, rsplitLast k = Option.some (b, op) ∧
      (op = "lt" ∨ op = "gt" ∨ op = "eq") ∧
      b ≠ "symbol" ∧ b ≠ "name" ∧ b ≠ "sector" := by
  unfold WFKeyB at h
  cases hr : rsplitLast k with
  | none => rw [hr] at h; exact absurd h (by simp)
  | some p =>
    obtain ⟨b, op⟩ := p
    rw [hr] at h
    simp only [decide_eq_true_eq] at h
    exact ⟨b, op, rfl, h.1, h.2.1, h.2.2.1, h.2.2.2⟩

theorem passesOne_not_error (s : StockData) (k : String) (v : ℚ)
    (h : WFKeyB k = true) : ∃ bb, passesOne s k v = Except.ok bb := by
  obtain ⟨b, op, hr, hop, h1, h2, h3⟩ := wfkey_spec k h
  simp only [passesOne, hr]
  rw [getattrP_of_not_str s b h1 h2 h3]
  cases hm : getMetric s b with
  | none => exact ⟨false, rfl⟩
  | some q =>
    simp only [optNum]
    split_ifs <;> exact ⟨_, rfl⟩

theorem passesOne_eq_ok_bool (s : StockData) (k : String) (v : ℚ)
    (h : WFKeyB k = true) :
    passesOne s k v = Except.ok (passesOneB s k v) := by
  obtain ⟨bb, hbb⟩ := passesOne_not_error s k v h
  rw [hbb]
  unfold passesOneB
  rw [hbb]
  cases bb <;> rfl

theorem passesAll_eq_ok (s : StockData) (filters : List (String × ℚ))
    (hwf : ∀ p ∈ filters, WFKeyB p.1 = true) :
    passesAll s filters = Except.ok (passesB s filters) := by
  induction filters with
  | nil => rfl
  | cons p rest ih =>
    obtain ⟨k, v⟩ := p
    have hk := hwf (k, v) (List.mem_cons_self _ _)
    have hrest : ∀ p ∈ rest, WFKeyB p.1 = true :=
      fun p hp => hwf p (List.mem_cons_of_mem _ hp)
    simp only [passesAll, passesOne_eq_ok_bool s k v hk]
    cases hb : passesOneB s k v
    · simp [passesB, List.all_cons, hb]
    · simp [passesB, List.all_cons, hb, ih hrest]

theorem applyFilters_ok (stocks : List StockData) (filters : List (String × ℚ))
    (hwf : ∀ p ∈ filters, WFKeyB p.1 = true) :
    applyFilters stocks filters =
      Except.ok (stocks.filter (fun s => passesB s filters)) :=
  filterE_eq_filter _ _ (fun s => passesAll_eq_ok s filters hwf) stocks

-- ===== Claim theorems: filter engine =====

/-- C1: for every entity and every predicate `<metric>_<op>` with
op ∈ {lt, gt, eq} and threshold t, the entity passes iff its value for the
metric is present and strictly less than / strictly greater than / equal
to t.  In particular a value equal to the threshold fails `lt` and `gt`
(the strict-inequality boundary), and an absent value fails every
predicate over that metric. -/
theorem claim1_predicate_strictness (s : StockData) (m op : String) (t : ℚ)
    (hm : m ∈ metricKeysFull) (hop : op ∈ (["lt", "gt", "eq"] : List String)) :
    (passesOne s (m ++ "_" ++ op) t = Except.ok true ↔
      ∃ q, getMetric s m = Option.some q ∧
        (op = "lt" → q < t) ∧ (op = "gt" → t < q) ∧ (op = "eq" → q = t)) := by
  have hs := rsplit_metric_op m hm op hop
  have hns := metricKeysFull_not_str m hm
  have hop2 : op = "lt" ∨ op = "gt" ∨ op = "eq" := by simpa using hop
  exact passesOne_true_iff s (m ++ "_" ++ op) m op t hs hns.1 hns.2.1 hns.2.2 hop2

theorem claim1_predicate_strictness_witness :
    ("peRatio" ∈ metricKeysFull ∧ "lt" ∈ (["lt", "gt", "eq"] : List String)) ∧
    (passesOne stockAlpha ("peRatio" ++ "_" ++ "lt") 40 = Except.ok true ↔
      ∃ q, getMetric stockAlpha "peRatio" = Option.some q ∧
        ("lt" = "lt" → q < 40) ∧ ("lt" = "gt" → (40 : ℚ) < q) ∧
        ("lt" = "eq" → q = 40)) :=
  ⟨⟨by decide, by decide⟩,
   claim1_predicate_strictness stockAlpha "peRatio" "lt" 40 (by decide) (by decide)⟩

/-- C2 counterexample: with the filter key `"price_under"` (operator suffix
`"under"`, not one of lt/gt/eq) the code does NOT raise any error: it
returns the entity (whose price 100 exceeds the threshold 50) unchanged, so
the malformed predicate silently passes entities, contradicting the claim
that an `InvalidFilterKey` error is signalled. -/
theorem claim2_counterexample :
    applyFilters [stockAlpha] [("price_under", (50 : ℚ))] =
      Except.ok [stockAlpha] := by rfl

/-- C2 amended: a filter key whose suffix after the last underscore is not
one of lt/gt/eq is NOT an error; the predicate degenerates to a presence
check on the key's metric prefix: entities with a present value pass it
regardless of the threshold, entities with an absent value fail it. -/
theorem claim2_amended_unknown_op (stocks : List StockData)
    (key base op : String) (v : ℚ)
    (hr : rsplitLast key = Option.some (base, op))
    (hop : op ≠ "lt" ∧ op ≠ "gt" ∧ op ≠ "eq") :
    applyFilters stocks [(key, v)] =
      Except.ok (stocks.filter (fun s => getattrP s base ≠ PyVal.none)) := by
  apply filterE_eq_filter
  intro s
  obtain ⟨o1, o2, o3⟩ := hop
  cases hg : getattrP s base with
  | none => simp [passesAll, passesOne, hr, hg]
  | num q =>
    simp [passesAll, passesOne, hr, hg, eq_false o1, eq_false o2, eq_false o3]
  | str t =>
    simp [passesAll, passesOne, hr, hg, eq_false o1, eq_false o2, eq_false o3]

theorem claim2_amended_unknown_op_witness :
    (rsplitLast "price_under" = Option.some ("price", "under") ∧
     "under" ≠ "lt" ∧ "under" ≠ "gt" ∧ "under" ≠ "eq") ∧
    applyFilters [stockAlpha, stockBeta] [("price_under", (50 : ℚ))] =
      Except.ok ([stockAlpha, stockBeta].filter
        (fun s => getattrP s "price" ≠ PyVal.none)) :=
  ⟨⟨by decide, by decide, by decide, by decide⟩,
   claim2_amended_unknown_op [stockAlpha, stockBeta] "price_under" "price" "under" 50
     (by decide) ⟨by decide, by decide, by decide⟩⟩

/-- C6: for well-formed filters, `apply_filters` returns exactly the input
entities that pass every predicate (conjunction), as a new list preserving
relative order (a sublist of the input, entities unchanged), and it is
idempotent. -/
theorem claim6_filter_semantics (stocks : List StockData)
    (filters : List (String × ℚ))
    (hwf : ∀ p ∈ filters, WFKeyB p.1 = true) :
    applyFilters stocks filters =
      Except.ok (stocks.filter (fun s => passesB s filters)) ∧
    (stocks.filter (fun s => passesB s filters)).Sublist stocks ∧
    (∀ s, s ∈ stocks.filter (fun s => passesB s filters) ↔
      s ∈ stocks ∧ passesB s filters = true) ∧
    applyFilters (stocks.filter (fun s => passesB s filters)) filters =
      Except.ok (stocks.filter (fun s => passesB s filters)) := by
  refine ⟨applyFilters_ok stocks filters hwf, List.filter_sublist stocks, ?_, ?_⟩
  · intro s
    simp [List.mem_filter]
  · rw [applyFilters_ok _ filters hwf, List.filter_filter]
    simp [Bool.and_self]

theorem claim6_filter_semantics_witness :
    (∀ p ∈ [(("price_gt" : String), (25 : ℚ))], WFKeyB p.1 = true) ∧
    (applyFilters [stockAlpha, stockGamma] [("price_gt", 25)] =
      Except.ok ([stockAlpha, stockGamma].filter
        (fun s => passesB s [("price_gt", 25)])) ∧
    ([stockAlpha, stockGamma].filter
      (fun s => passesB s [("price_gt", 25)])).Sublist [stockAlpha, stockGamma] ∧
    (∀ s, s ∈ [stockAlpha, stockGamma].filter
        (fun s => passesB s [("price_gt", 25)]) ↔
      s ∈ [stockAlpha, stockGamma] ∧ passesB s [("price_gt", 25)] = true) ∧
    applyFilters ([stockAlpha, stockGamma].filter
        (fun s => passesB s [("price_gt", 25)])) [("price_gt", 25)] =
      Except.ok ([stockAlpha, stockGamma].filter
        (fun s => passesB s [("price_gt", 25)]))) :=
  ⟨by decide,
   claim6_filter_semantics [stockAlpha, stockGamma] [("price_gt", 25)] (by decide)⟩

-- ===== Sorting lemmas =====

theorem skey_leB_total (a b : SKey) : SKey.leB a b = true ∨ SKey.leB b a = true := by
  cases a with
  | num qa =>
    cases b with
    | num qb => simpa [SKey.leB] using le_total qa qb
    | str sb => simp [SKey.leB]
  | str sa =>
    cases b with
    | num qb => simp [SKey.leB]
    | str sb => simpa [SKey.leB] using le_total sa sb

theorem skey_leB_trans {a b c : SKey} (h1 : SKey.leB a b = true)
    (h2 : SKey.leB b c = true) : SKey.leB a c = true := by
  cases a <;> cases b <;> cases c <;> simp_all [SKey.leB]
  · exact le_trans h1 h2
  · exact le_trans h1 h2

instance (m : String) : IsTotal StockData (ascRel m) :=
  ⟨fun s t => skey_leB_total (sortKey m s) (sortKey m t)⟩

instance (m : String) : IsTrans StockData (ascRel m) :=
  ⟨fun _ _ _ h1 h2 => skey_leB_trans h1 h2⟩

instance : IsTotal StockData descRel :=
  ⟨fun s t => le_total (t.marketCap.getD 0) (s.marketCap.getD 0)⟩

instance : IsTrans StockData descRel :=
  ⟨fun _ _ _ h1 h2 => le_trans h2 h1⟩

theorem sortKey_eq_num (m : String)
    (h1 : m ≠ "symbol") (h2 : m ≠ "name") (h3 : m ≠ "sector") (s : StockData) :
    sortKey m s = SKey.num (qkey m s) := by
  unfold sortKey
  rw [getattrP_of_not_str s m h1 h2 h3]
  cases hm : getMetric s m <;> simp [optNum, qkey, hm]

theorem ascRel_iff_qkey (m : String)
    (h1 : m ≠ "symbol") (h2 : m ≠ "name") (h3 : m ≠ "sector") (s t : StockData) :
    ascRel m s t ↔ qkey m s ≤ qkey m t := by
  unfold ascRel
  rw [sortKey_eq_num m h1 h2 h3 s, sortKey_eq_num m h1 h2 h3 t]
  simp [SKey.leB]

theorem filter_insertionSort_eq {α : Type} {r : α → α → Prop} [DecidableRel r]
    (p : α → Bool) (l : List α) (hp : (l.filter p).Pairwise r) :
    (l.insertionSort r).filter p = l.filter p := by
  have hsub : (l.filter p).Sublist (l.insertionSort r) :=
    List.sublist_insertionSort hp (List.filter_sublist l)
  have hsub2 : (l.filter p).Sublist ((l.insertionSort r).filter p) := by
    simpa [List.filter_filter, Bool.and_self] using hsub.filter p
  have hlen : ((l.insertionSort r).filter p).length = (l.filter p).length :=
    ((List.perm_insertionSort r l).filter p).length_eq
  exact (hsub2.eq_of_length hlen.symm).symm

-- ===== Claim theorem: ranking =====

/-- C8: with a non-empty filter set whose first key `k` names the sort
metric `m` (the prefix of `k` before its last underscore), the surviving
entities are sorted ascending by `m` with an absent value read as 0, the
result is a permutation of the filtered list, and the sort is stable:
for every key value `c`, the entities whose sort key equals `c` keep their
original relative order. -/
theorem claim8_ranking (k m : String) (filtered : List StockData)
    (hk : k ≠ "") (hm : rsplitBase k = m)
    (h1 : m ≠ "symbol") (h2 : m ≠ "name") (h3 : m ≠ "sector") :
    (rankStage k filtered).Perm filtered ∧
    List.Sorted (fun s t => qkey m s ≤ qkey m t) (rankStage k filtered) ∧
    (∀ c : ℚ, (rankStage k filtered).filter (fun s => qkey m s = c) =
      filtered.filter (fun s => qkey m s = c)) := by
  have hr : rankStage k filtered = filtered.insertionSort (ascRel m) := by
    unfold rankStage
    rw [if_neg hk, hm]
  refine ⟨?_, ?_, ?_⟩
  · rw [hr]
    exact List.perm_insertionSort _ _
  · rw [hr]
    exact List.Pairwise.imp (fun h => (ascRel_iff_qkey m h1 h2 h3 _ _).1 h)
      (List.sorted_insertionSort (ascRel m) filtered)
  · intro c
    rw [hr]
    apply filter_insertionSort_eq
    apply List.pairwise_of_forall_mem_list
    intro a ha b hb
    rw [List.mem_filter] at ha hb
    rw [ascRel_iff_qkey m h1 h2 h3]
    have hac : qkey m a = c := by simpa using ha.2
    have hbc : qkey m b = c := by simpa using hb.2
    rw [hac, hbc]

theorem claim8_ranking_witness :
    (("peRatio_lt" : String) ≠ "" ∧ rsplitBase "peRatio_lt" = "peRatio") ∧
    (rankStage "peRatio_lt" stockList3).Perm stockList3 ∧
    List.Sorted (fun s t => qkey "peRatio" s ≤ qkey "peRatio" t)
      (rankStage "peRatio_lt" stockList3) ∧
    (rankStage "peRatio_lt" stockList3).filter
        (fun s => qkey "peRatio" s = (10 : ℚ)) =
      stockList3.filter (fun s => qkey "peRatio" s = (10 : ℚ)) := by
  have h := claim8_ranking "peRatio_lt" "peRatio" stockList3 (by decide) (by decide)
    (by decide) (by decide) (by decide)
  exact ⟨⟨by decide, by decide⟩, h.1, h.2.1, h.2.2 10⟩

-- ===== Truncation =====

/-- C3 corrected: the truncation step never signals an `InvalidLimit`.
A positive limit takes the first `limit` entities; an ABSENT limit or a
limit of ZERO both silently fall back to the default of 5; a negative
limit is fed to Python slicing and silently drops the last `|limit|`
entities instead of erroring. -/
theorem claim3_amended_truncation {α : Type} (limit : Option Int) (l : List α) :
    (∀ n : Int, limit = Option.some n → 0 < n →
      truncStage limit l = l.take n.toNat) ∧
    ((limit = Option.none ∨ limit = Option.some 0) →
      truncStage limit l = l.take 5) ∧
    (∀ n : Int, limit = Option.some n → n < 0 →
      truncStage limit l = l.take (l.length - n.natAbs)) := by
  refine ⟨?_, ?_, ?_⟩
  · rintro n rfl hn
    simp [truncStage, pySlice, hn.le, hn.ne.symm]
  · rintro (rfl | rfl) <;> simp [truncStage]
  · rintro n rfl hn
    simp [truncStage, pySlice, hn.ne, not_le.mpr hn]

theorem claim3_amended_truncation_witness :
    truncStage (Option.some 0) stocksSix = stocksSix.take 5 :=
  (claim3_amended_truncation (Option.some 0) stocksSix).2.1 (Or.inr rfl)

-- ===== Filters: empty dict =====

theorem applyFilters_nil (stocks : List StockData) :
    applyFilters stocks [] = Except.ok stocks := by
  have h := applyFilters_ok stocks [] (by intro p hp; cases hp)
  simpa [passesB] using h

/-- C5 (code bug): with an empty filter dict, `invoke` never reaches the
documented fallback sort by `marketCap`: `next(iter(intent.filters))`
raises `StopIteration`, the broad `except Exception` catches it, and an
error dict is returned; the `else` branch carrying the fallback sort is
dead code. -/
theorem claim5_empty_filters_error (cache : Cache) (intent : StockIntent)
    (fetched : List StockData) (hfil : intent.filters = [])
    (hne : stocksEff cache intent fetched ≠ []) :
    (invoke cache intent fetched).1 =
      { success := false, err := Option.some InvokeErr.stopIteration,
        results := [] } := by
  have hs : (getStocksStage cache intent.sector fetched).1.isEmpty = false := by
    rw [List.isEmpty_eq_false]
    exact hne
  simp [invoke, hs, hfil, applyFilters_nil]

theorem claim5_empty_filters_error_witness :
    (intentNoFilters.filters = [] ∧
     stocksEff emptyCache intentNoFilters [stockAlpha] ≠ []) ∧
    (invoke emptyCache intentNoFilters [stockAlpha]).1 =
      { success := false, err := Option.some InvokeErr.stopIteration,
        results := [] } :=
  ⟨⟨rfl, by decide⟩,
   claim5_empty_filters_error emptyCache intentNoFilters [stockAlpha] rfl (by decide)⟩

-- ===== Medians =====

theorem alookup_medians_aux (stocks : List StockData) (key : String) :
    ∀ K : List String, K.Nodup →
    alookup (K.filterMap (fun k =>
        if (presentValues stocks k).isEmpty then Option.none
        else Option.some (k, round2 (pyMedian (presentValues stocks k))))) key =
      if key ∈ K ∧ (presentValues stocks key).isEmpty = false
      then Option.some (round2 (pyMedian (presentValues stocks key)))
      else Option.none := by
  intro K
  induction K with
  | nil =>
    intro _
    simp [alookup]
  | cons k K ih =>
    intro hnd
    have hk : k ∉ K := (List.nodup_cons.mp hnd).1
    have ih2 := ih (List.nodup_cons.mp hnd).2
    by_cases hbk : (presentValues stocks k).isEmpty
    · rw [List.filterMap_cons_none (by simp [hbk]), ih2]
      by_cases hkey : key = k
      · subst hkey
        simp [hk, hbk]
      · simp [List.mem_cons, hkey]
    · simp only [List.filterMap_cons, hbk, if_false, ite_false]
      by_cases hkey : k = key
      · subst hkey
        simp [alookup, hbk]
      · simp only [alookup, if_neg hkey, ih2, List.mem_cons]
        have hne2 : ¬ key = k := fun h => hkey h.symm
        simp [hne2]

/-- C7: the aggregate statistic computed for each metric is the statistical
median (via `pyMedian`: middle of the sorted present values, average of the
two middle values for even counts) of the values present on the population
handed to `computeMedians` — in `invoke` that is the full, unfiltered
`stocks` list — rounded to 2 decimal places (`round2`); a metric with zero
present values is omitted from the medians map entirely, never reported as
0. -/
theorem claim7_median_aggregation (stocks : List StockData) (key : String)
    (hk : key ∈ metricKeysFull) :
    (alookup (computeMedians stocks) key = Option.none ↔
      presentValues stocks key = []) ∧
    (presentValues stocks key ≠ [] →
      alookup (computeMedians stocks) key =
        Option.some (round2 (pyMedian (presentValues stocks key)))) := by
  have h := alookup_medians_aux stocks key metricKeysFull (by decide)
  unfold computeMedians
  rw [h]
  constructor
  · by_cases he : (presentValues stocks key).isEmpty = true
    · have hnil : presentValues stocks key = [] := List.isEmpty_iff.mp he
      simp [hk, he, hnil]
    · have he2 : (presentValues stocks key).isEmpty = false := by
        cases hb : (presentValues stocks key).isEmpty
        · rfl
        · exact absurd hb he
      have hne : presentValues stocks key ≠ [] := by
        rw [← List.isEmpty_eq_false]
        exact he2
      simp [hk, he2, hne]
  · intro hne
    have he : (presentValues stocks key).isEmpty = false := by
      rw [List.isEmpty_eq_false]
      exact hne
    simp [hk, he]

theorem claim7_median_aggregation_witness :
    ("price" ∈ metricKeysFull) ∧
    ((alookup (computeMedians stocksSix) "price" = Option.none ↔
      presentValues stocksSix "price" = []) ∧
    (presentValues stocksSix "price" ≠ [] →
      alookup (computeMedians stocksSix) "price" =
        Option.some (round2 (pyMedian (presentValues stocksSix "price"))))) :=
  ⟨by decide, claim7_median_aggregation stocksSix "price" (by decide)⟩

-- ===== invoke: success path =====

theorem rankStage_nil (k : String) : rankStage k [] = [] := by
  unfold rankStage
  split_ifs <;> rfl

theorem truncStage_nil {α : Type} (limit : Option Int) :
    truncStage limit ([] : List α) = [] := by
  cases limit with
  | none => rfl
  | some n => simp [truncStage, pySlice]

theorem rankStage_length (k : String) (l : List StockData) :
    (rankStage k l).length = l.length := by
  unfold rankStage
  split_ifs <;> exact (List.perm_insertionSort _ _).length_eq

theorem truncStage_take {α : Type} (limit : Option Int) (l : List α)
    (hlim : limit = Option.none ∨ ∃ n, limit = Option.some n ∧ 0 < n) :
    truncStage limit l = l.take (effLimit limit) := by
  rcases hlim with rfl | ⟨n, rfl, hn⟩
  · rfl
  · simp [truncStage, pySlice, effLimit, hn, hn.le, hn.ne.symm]

theorem getStocksStage_medians (cache : Cache) (sector : String)
    (fetched : List StockData) :
    ((getStocksStage cache sector fetched).2 sector).medians =
      (cache sector).medians := by
  unfold getStocksStage
  cases h : (cache sector).stocks
  · simp [cacheSet]
  · simp

theorem medianStage_miss (cache : Cache) (intent : StockIntent)
    (stocks : List StockData) (mkeys : List String)
    (h : (cache intent.sector).medians = Option.none) :
    medianStage cache intent stocks mkeys =
      (buildMedianRow intent.sector mkeys (computeMedians stocks),
       cacheSet cache intent.sector
         { stocks := Option.none,
           medians := Option.some (buildMedianRow intent.sector mkeys
             (computeMedians stocks)) }) := by
  simp [medianStage, h]

theorem alookup_dictSet_ne (d : Row) (k k2 : String) (v : PyVal) (h : k ≠ k2) :
    alookup (dictSet d k v) k2 = alookup d k2 := by
  induction d with
  | nil => simp [dictSet, alookup, h]
  | cons p rest ih =>
    obtain ⟨k1, v1⟩ := p
    by_cases h1 : k1 = k
    · subst h1
      simp [dictSet, alookup, h]
    · simp [dictSet, alookup, h1, ih]

theorem alookup_foldl_dictSet (f : String → PyVal) (key : String) :
    ∀ mkeys : List String, (∀ m ∈ mkeys, m ≠ key) →
    ∀ d : Row,
      alookup (mkeys.foldl (fun e m => dictSet e m (f m)) d) key =
        alookup d key := by
  intro mkeys
  induction mkeys with
  | nil =>
    intro _ d
    rfl
  | cons m ms ih =>
    intro hm d
    rw [List.foldl_cons, ih (fun x hx => hm x (List.mem_cons_of_mem _ hx)),
        alookup_dictSet_ne d m key (f m) (hm m (List.mem_cons_self _ _))]

theorem buildMedianRow_sentinels (sector : String) (mkeys : List String)
    (meds : List (String × ℚ))
    (hmk : ∀ m ∈ mkeys, m ≠ "symbol" ∧ m ≠ "name" ∧ m ≠ "sector") :
    alookup (buildMedianRow sector mkeys meds) "symbol" =
      Option.some (PyVal.str "Sector") ∧
    alookup (buildMedianRow sector mkeys meds) "name" =
      Option.some (PyVal.str "Median") := by
  constructor
  · exact (alookup_foldl_dictSet (fun m => optNum (alookup meds m)) "symbol" mkeys
      (fun m hm => (hmk m hm).1) _).trans rfl
  · exact (alookup_foldl_dictSet (fun m => optNum (alookup meds m)) "name" mkeys
      (fun m hm => (hmk m hm).2.1) _).trans rfl

/-- Shape of `invoke` on the success path: nonempty population, nonempty
well-formed filters.  Everything downstream (C4, C9, C10) reads off this
equation. -/
theorem invoke_success_eq (cache : Cache) (intent : StockIntent)
    (fetched : List StockData) (k : String) (v : ℚ) (rest : List (String × ℚ))
    (hfil : intent.filters = (k, v) :: rest)
    (hne : stocksEff cache intent fetched ≠ [])
    (hwf : ∀ p ∈ intent.filters, WFKeyB p.1 = true) :
    invoke cache intent fetched =
      ({ success := true, err := Option.none,
         total_found := Option.some (stocksEff cache intent fetched).length,
         after_filters := Option.some (truncStage intent.limit (rankStage k
           ((stocksEff cache intent fetched).filter
             (fun s => passesB s ((k, v) :: rest))))).length,
         results := (truncStage intent.limit (rankStage k
           ((stocksEff cache intent fetched).filter
             (fun s => passesB s ((k, v) :: rest))))).map
               (stockRow (metricKeysOf intent)) ++
           [(medianStage (getStocksStage cache intent.sector fetched).2 intent
              (stocksEff cache intent fetched) (metricKeysOf intent)).1] },
       (medianStage (getStocksStage cache intent.sector fetched).2 intent
         (stocksEff cache intent fetched) (metricKeysOf intent)).2) := by
  have hs : (getStocksStage cache intent.sector fetched).1.isEmpty = false := by
    rw [List.isEmpty_eq_false]
    exact hne
  have haf := applyFilters_ok (getStocksStage cache intent.sector fetched).1
    intent.filters hwf
  rw [hfil] at haf
  simp only [invoke, stocksEff, hfil, hs, Bool.false_eq_true, if_false, haf]

-- ===== Claim theorems: invoke =====

/-- C3 counterexample: a provided limit of ZERO does not signal any
`InvalidLimit` error: the request succeeds and the zero limit is silently
replaced by the default truncation to 5 (six entities survive the filter,
five are returned). -/
theorem claim3_counterexample :
    (invoke emptyCache intentLimitZero stocksSix).1.success = true ∧
    (invoke emptyCache intentLimitZero stocksSix).1.after_filters =
      Option.some 5 := by
  decide

/-- C4 counterexample: with a nonempty population whose entities are all
excluded by the filters, the result is marked SUCCESSFUL (not unsuccessful),
carries no "no matching entities" indication, and its result list is not
empty: it contains exactly the aggregate median row. -/
theorem claim4_counterexample :
    (invoke emptyCache intentNoMatch [stockAlpha]).1.success = true ∧
    (invoke emptyCache intentNoMatch [stockAlpha]).1.err = Option.none ∧
    (invoke emptyCache intentNoMatch [stockAlpha]).1.after_filters =
      Option.some 0 ∧
    (invoke emptyCache intentNoMatch [stockAlpha]).1.results.length = 1 := by
  decide

/-- C4 amended: when the population is nonempty but the (well-formed,
nonempty) filters exclude every entity, the result is marked successful,
`after_filters` is 0, and the result list consists of exactly one row — the
aggregate median row; no no-match indication exists. -/
theorem claim4_amended_no_match (cache : Cache) (intent : StockIntent)
    (fetched : List StockData) (k : String) (v : ℚ) (rest : List (String × ℚ))
    (hfil : intent.filters = (k, v) :: rest)
    (hne : stocksEff cache intent fetched ≠ [])
    (hwf : ∀ p ∈ intent.filters, WFKeyB p.1 = true)
    (hempty : (stocksEff cache intent fetched).filter
      (fun s => passesB s ((k, v) :: rest)) = []) :
    (invoke cache intent fetched).1.success = true ∧
    (invoke cache intent fetched).1.after_filters = Option.some 0 ∧
    (invoke cache intent fetched).1.results =
      [(medianStage (getStocksStage cache intent.sector fetched).2 intent
        (stocksEff cache intent fetched) (metricKeysOf intent)).1] := by
  rw [invoke_success_eq cache intent fetched k v rest hfil hne hwf]
  rw [hempty, rankStage_nil, truncStage_nil]
  exact ⟨rfl, rfl, rfl⟩

theorem claim4_amended_no_match_witness :
    (intentNoMatch.filters = [("price_lt", (1 : ℚ))] ∧
     stocksEff emptyCache intentNoMatch [stockAlpha] ≠ [] ∧
     (∀ p ∈ intentNoMatch.filters, WFKeyB p.1 = true) ∧
     (stocksEff emptyCache intentNoMatch [stockAlpha]).filter
       (fun s => passesB s [("price_lt", (1 : ℚ))]) = []) ∧
    ((invoke emptyCache intentNoMatch [stockAlpha]).1.success = true ∧
     (invoke emptyCache intentNoMatch [stockAlpha]).1.after_filters =
       Option.some 0 ∧
     (invoke emptyCache intentNoMatch [stockAlpha]).1.results =
       [(medianStage (getStocksStage emptyCache intentNoMatch.sector
           [stockAlpha]).2 intentNoMatch
         (stocksEff emptyCache intentNoMatch [stockAlpha])
         (metricKeysOf intentNoMatch)).1]) :=
  ⟨⟨rfl, by decide, by decide, by decide⟩,
   claim4_amended_no_match emptyCache intentNoMatch [stockAlpha] "price_lt" 1 []
     rfl (by decide) (by decide) (by decide)⟩

/-- C9: on the success path (nonempty population, nonempty well-formed
filters, fresh medians cache, absent/zero-free positive limit, metric keys
disjoint from the identifier fields), `after_filters` is the post-truncation
count `min (effective limit) (number surviving)`, the result list is exactly
that many entity rows followed by exactly one aggregate row as its final
element, the aggregate row carries the sentinel identifier `Sector` and
sentinel name `Median`, and `total_found` is the size of the full unfiltered
population. -/
theorem claim9_result_shape (cache : Cache) (intent : StockIntent)
    (fetched : List StockData) (k : String) (v : ℚ) (rest : List (String × ℚ))
    (hfil : intent.filters = (k, v) :: rest)
    (hne : stocksEff cache intent fetched ≠ [])
    (hwf : ∀ p ∈ intent.filters, WFKeyB p.1 = true)
    (hmed : (cache intent.sector).medians = Option.none)
    (hlim : intent.limit = Option.none ∨
      ∃ n, intent.limit = Option.some n ∧ 0 < n)
    (hmk : ∀ m ∈ metricKeysOf intent,
      m ≠ "symbol" ∧ m ≠ "name" ∧ m ≠ "sector") :
    (invoke cache intent fetched).1.success = true ∧
    (invoke cache intent fetched).1.total_found =
      Option.some (stocksEff cache intent fetched).length ∧
    (invoke cache intent fetched).1.after_filters =
      Option.some (min (effLimit intent.limit)
        ((stocksEff cache intent fetched).filter
          (fun s => passesB s ((k, v) :: rest))).length) ∧
    (∃ rows row, (invoke cache intent fetched).1.results = rows ++ [row] ∧
      rows.length = min (effLimit intent.limit)
        ((stocksEff cache intent fetched).filter
          (fun s => passesB s ((k, v) :: rest))).length ∧
      alookup row "symbol" = Option.some (PyVal.str "Sector") ∧
      alookup row "name" = Option.some (PyVal.str "Median")) := by
  rw [invoke_success_eq cache intent fetched k v rest hfil hne hwf]
  have hmed1 : ((getStocksStage cache intent.sector fetched).2
      intent.sector).medians = Option.none := by
    rw [getStocksStage_medians]
    exact hmed
  have hms := medianStage_miss (getStocksStage cache intent.sector fetched).2
    intent (stocksEff cache intent fetched) (metricKeysOf intent) hmed1
  have hsent := buildMedianRow_sentinels intent.sector (metricKeysOf intent)
    (computeMedians (stocksEff cache intent fetched)) hmk
  refine ⟨rfl, rfl, ?_, ?_⟩
  · rw [truncStage_take _ _ hlim, List.length_take, rankStage_length]
  · refine ⟨_, _, rfl, ?_, ?_, ?_⟩
    · rw [List.length_map, truncStage_take _ _ hlim, List.length_take,
        rankStage_length]
    · rw [hms]
      exact hsent.1
    · rw [hms]
      exact hsent.2

theorem claim9_result_shape_witness :
    (intentBasic.filters = [("price_gt", (0 : ℚ))] ∧
     stocksEff emptyCache intentBasic stockList3 ≠ [] ∧
     (∀ p ∈ intentBasic.filters, WFKeyB p.1 = true) ∧
     (emptyCache intentBasic.sector).medians = Option.none ∧
     (intentBasic.limit = Option.none ∨
       ∃ n, intentBasic.limit = Option.some n ∧ 0 < n) ∧
     (∀ m ∈ metricKeysOf intentBasic,
       m ≠ "symbol" ∧ m ≠ "name" ∧ m ≠ "sector")) ∧
    ((invoke emptyCache intentBasic stockList3).1.success = true ∧
     (invoke emptyCache intentBasic stockList3).1.total_found =
       Option.some (stocksEff emptyCache intentBasic stockList3).length ∧
     (invoke emptyCache intentBasic stockList3).1.after_filters =
       Option.some (min (effLimit intentBasic.limit)
         ((stocksEff emptyCache intentBasic stockList3).filter
           (fun s => passesB s [("price_gt", (0 : ℚ))])).length) ∧
     (∃ rows row,
       (invoke emptyCache intentBasic stockList3).1.results = rows ++ [row] ∧
       rows.length = min (effLimit intentBasic.limit)
         ((stocksEff emptyCache intentBasic stockList3).filter
           (fun s => passesB s [("price_gt", (0 : ℚ))])).length ∧
       alookup row "symbol" = Option.some (PyVal.str "Sector") ∧
       alookup row "name" = Option.some (PyVal.str "Median"))) :=
  ⟨⟨rfl, by decide, by decide, rfl, Or.inr ⟨2, rfl, by decide⟩, by decide⟩,
   claim9_result_shape emptyCache intentBasic stockList3 "price_gt" 0 []
     rfl (by decide) (by decide) rfl (Or.inr ⟨2, rfl, by decide⟩) (by decide)⟩

/-- C10: when the medians cache misses for the sector (so medians are
computed), `invoke` replaces that sector's whole cache entry by one holding
only the medians row: the previously cached (or just-cached) `"stocks"`
population for the sector is discarded. -/
theorem claim10_cache_replacement (cache : Cache) (intent : StockIntent)
    (fetched : List StockData) (k : String) (v : ℚ) (rest : List (String × ℚ))
    (hfil : intent.filters = (k, v) :: rest)
    (hne : stocksEff cache intent fetched ≠ [])
    (hwf : ∀ p ∈ intent.filters, WFKeyB p.1 = true)
    (hmed : (cache intent.sector).medians = Option.none) :
    ((invoke cache intent fetched).2 intent.sector).stocks = Option.none ∧
    ((invoke cache intent fetched).2 intent.sector).medians =
      Option.some (buildMedianRow intent.sector (metricKeysOf intent)
        (computeMedians (stocksEff cache intent fetched))) := by
  rw [invoke_success_eq cache intent fetched k v rest hfil hne hwf]
  have hmed1 : ((getStocksStage cache intent.sector fetched).2
      intent.sector).medians = Option.none := by
    rw [getStocksStage_medians]
    exact hmed
  rw [medianStage_miss (getStocksStage cache intent.sector fetched).2
    intent (stocksEff cache intent fetched) (metricKeysOf intent) hmed1]
  simp [cacheSet]

theorem claim10_cache_replacement_witness :
    (intentBasic.filters = [("price_gt", (0 : ℚ))] ∧
     stocksEff emptyCache intentBasic stockList3 ≠ [] ∧
     (∀ p ∈ intentBasic.filters, WFKeyB p.1 = true) ∧
     (emptyCache intentBasic.sector).medians = Option.none) ∧
    (((invoke emptyCache intentBasic stockList3).2 intentBasic.sector).stocks =
      Option.none ∧
     ((invoke emptyCache intentBasic stockList3).2 intentBasic.sector).medians =
      Option.some (buildMedianRow intentBasic.sector (metricKeysOf intentBasic)
        (computeMedians (stocksEff emptyCache intentBasic stockList3)))) :=
  ⟨⟨rfl, by decide, by decide, rfl⟩,
   claim10_cache_replacement emptyCache intentBasic stockList3 "price_gt" 0 []
     rfl (by decide) (by decide) rfl⟩
